import Mathlib

/-!
Verification of the eGON.BT0 boot-image builder (mkboot.py).

The builder reads a raw binary, prepends a 32-byte eGON.BT0 header and
16 bytes of 0xFF padding, pads the result with zero bytes to a multiple
of 512, and patches a 32-bit little-endian checksum (the sum of all
little-endian 32-bit words of the image, computed while the checksum
field holds the sentinel 0x5F0A6C39) into bytes [12:16].

Bytes are modelled as natural numbers; a byte sequence is a List Nat.
Calls to struct.pack / struct.unpack are modelled as Option-valued
functions: struct.pack raises when the value does not fit in 32 bits,
struct.unpack raises when the slice is not exactly 4 bytes long.
-/

/-- HEADER_SIZE constant of mkboot.py: size of the eGON.BT0 header. -/
def HEADER_SIZE : Nat := 32

/-- CODE_START_OFFSET constant of mkboot.py: offset where the code starts. -/
def CODE_START_OFFSET : Nat := 0x30

/-- Models struct.pack with format <I: four little-endian bytes; fails
(struct.error) when the value does not fit in an unsigned 32-bit word. -/
def pack_le32 (n : Nat) : Option (List Nat) :=
  if n < 2 ^ 32 then
    some [n % 256, n / 2 ^ 8 % 256, n / 2 ^ 16 % 256, n / 2 ^ 24 % 256]
  else none

/-- The four little-endian bytes of a 32-bit word, as a plain list. -/
def le32 (n : Nat) : List Nat :=
  [n % 256, n / 2 ^ 8 % 256, n / 2 ^ 16 % 256, n / 2 ^ 24 % 256]

/-- Models struct.unpack with format <I: decodes exactly four bytes as a
little-endian 32-bit word; fails when the slice is not 4 bytes long. -/
def unpack_le32 : List Nat → Option Nat
  | [b0, b1, b2, b3] => some (b0 + 2 ^ 8 * b1 + 2 ^ 16 * b2 + 2 ^ 24 * b3)
  | _ => none

/-- Models the checksum loop of make_boot0:
for i in range(0, len(image), 4): checksum += unpack(image[i:i+4]).
Each step reads the slice image[i:i+4]; when fewer than 4 bytes remain the
slice is short and struct.unpack raises, modelled by none. The running sum
is an unbounded integer, masked by the caller. -/
def sumWords : List Nat → Option Nat
  | [] => some 0
  | b0 :: b1 :: b2 :: b3 :: rest =>
      (sumWords rest).map (fun s => (b0 + 2 ^ 8 * b1 + 2 ^ 16 * b2 + 2 ^ 24 * b3) + s)
  | _ => none

/-- Models the Python expression (total + 511) & ~511 on a nonnegative
integer: rounding up to a multiple of 512 by clearing the low 9 bits
of total + 511, i.e. subtracting the remainder mod 512. -/
def aligned512 (total : Nat) : Nat :=
  (total + 511) - (total + 511) % 512

/-- The aligned image size for a code of length L, as computed by
make_boot0: aligned_size = (CODE_START_OFFSET + L + 511) & ~511. -/
def aligned_size (L : Nat) : Nat :=
  aligned512 (CODE_START_OFFSET + L)

/-- The 32-byte eGON.BT0 header built by make_boot0, given the aligned
image size. Field by field, following the source: branch word, magic
"eGON.BT0", checksum sentinel 0x5F0A6C39, total length, HEADER_SIZE,
and 8 reserved zero bytes (the bytearray is zero-initialised). -/
def boot_header (aligned : Nat) : Option (List Nat) := do
  let jump_offset := CODE_START_OFFSET / 4 - 2
  let w0 ← pack_le32 (0xEA000000 ||| (jump_offset &&& 0x00FFFFFF))
  let magic : List Nat := [0x65, 0x47, 0x4F, 0x4E, 0x2E, 0x42, 0x54, 0x30]
  let wck ← pack_le32 0x5F0A6C39
  let wlen ← pack_le32 aligned
  let whdr ← pack_le32 HEADER_SIZE
  return w0 ++ magic ++ wck ++ wlen ++ whdr ++ List.replicate 8 0

/-- The image assembled by make_boot0 before the checksum patch:
header ++ 0xFF padding up to CODE_START_OFFSET ++ code ++ zero tail
padding up to the aligned size. -/
def assemble (code : List Nat) : Option (List Nat) := do
  let padding_size := CODE_START_OFFSET - HEADER_SIZE
  let total_size := CODE_START_OFFSET + code.length
  let header ← boot_header (aligned_size code.length)
  let padding := List.replicate padding_size 0xFF
  let tail := List.replicate (aligned_size code.length - total_size) 0
  return header ++ padding ++ code ++ tail

/-- Models make_boot0 of mkboot.py as a pure function from the input
bytes to the output image bytes (file I/O and status printing omitted):
assemble the image, sum its little-endian 32-bit words, mask the sum to
32 bits, and write the checksum back into bytes [12:16]. none models a
struct.error crash. -/
def make_boot0 (code : List Nat) : Option (List Nat) := do
  let image ← assemble code
  let s ← sumWords image
  let checksum := s &&& 0xFFFFFFFF
  let ck ← pack_le32 checksum
  return image.take 12 ++ ck ++ image.drop 16

/-- Proof-side normal form of the image assembled by make_boot0 before
the checksum patch: the 16 concrete header bytes (branch word 0xEA00000A,
magic, checksum sentinel), the length field, the header-size field, the
8 reserved zero bytes, the 16 bytes of 0xFF padding, the code, and the
zero tail padding. -/
def IMG (code : List Nat) : List Nat :=
  [0x0A, 0x00, 0x00, 0xEA, 0x65, 0x47, 0x4F, 0x4E, 0x2E, 0x42, 0x54, 0x30,
   0x39, 0x6C, 0x0A, 0x5F] ++ le32 (aligned_size code.length) ++
  [0x20, 0, 0, 0] ++ List.replicate 8 0 ++ List.replicate 16 0xFF ++ code ++
  List.replicate (aligned_size code.length - (CODE_START_OFFSET + code.length)) 0

/-- Proof-side name for the unmasked word sum of the assembled image. -/
def sumVal (code : List Nat) : Nat :=
  (sumWords (IMG code)).getD 0

/-- Proof-side normal form of the final output image: the assembled image
with the computed checksum written over the sentinel in bytes [12:16]. -/
def OUTimg (code : List Nat) : List Nat :=
  [0x0A, 0x00, 0x00, 0xEA, 0x65, 0x47, 0x4F, 0x4E, 0x2E, 0x42, 0x54, 0x30] ++
  le32 (sumVal code % 2 ^ 32) ++ le32 (aligned_size code.length) ++
  [0x20, 0, 0, 0] ++ List.replicate 8 0 ++ List.replicate 16 0xFF ++ code ++
  List.replicate (aligned_size code.length - (CODE_START_OFFSET + code.length)) 0

/-- Outcome of the command-line entry point: the lines printed to
standard output, the exit status, and the input/output file names passed
to make_boot0 when it is invoked. -/
structure MainResult where
  stdout : List String
  exit_code : Nat
  invoked : Option (String × String)
deriving DecidableEq, Repr

/-- Models the __main__ block of mkboot.py: with an argument vector of
any length other than 3 (program name plus two positional arguments) it
prints a four-line usage message and exits with status 1; otherwise it
calls make_boot0 with the two file names (exit status 0 on success;
the summary lines printed by make_boot0 itself are omitted here). -/
def main_py (argv : List String) : MainResult :=
  if argv.length ≠ 3 then
    { stdout := ["Usage: " ++ argv.headD "" ++ " <input.bin> <output.bin>",
                 "",
                 "Creates a bootable image for F1C100S SPI flash or SD card",
                 "by adding an eGON.BT0 header to the input binary."]
      exit_code := 1
      invoked := none }
  else
    { stdout := []
      exit_code := 0
      invoked := some (argv.getD 1 "", argv.getD 2 "") }

/-! Helper lemmas. -/

theorem pack_le32_eq (n : Nat) (h : n < 2 ^ 32) : pack_le32 n = some (le32 n) := by
  simp only [pack_le32, le32]
  rw [if_pos h]

theorem le32_length (n : Nat) : (le32 n).length = 4 := rfl

theorem unpack_le32_le32 (n : Nat) : unpack_le32 (le32 n) = some (n % 2 ^ 32) := by
  simp only [unpack_le32, le32, Option.some.injEq]
  omega

theorem and_mask32 (n : Nat) : n &&& 0xFFFFFFFF = n % 2 ^ 32 := by
  have h := Nat.and_pow_two_sub_one_eq_mod n 32
  norm_num at h ⊢
  exact h

theorem aligned_size_mod (L : Nat) : aligned_size L % 512 = 0 := by
  unfold aligned_size aligned512 CODE_START_OFFSET
  omega

theorem aligned_size_ge (L : Nat) : CODE_START_OFFSET + L ≤ aligned_size L := by
  unfold aligned_size aligned512 CODE_START_OFFSET
  omega

theorem aligned_size_lt (L : Nat) : aligned_size L < CODE_START_OFFSET + L + 512 := by
  unfold aligned_size aligned512 CODE_START_OFFSET
  omega

theorem sumWords_total : ∀ (n : Nat) (l : List Nat), l.length = 4 * n →
    ∃ s, sumWords l = some s := by
  intro n
  induction n with
  | zero =>
    intro l hl
    cases l with
    | nil => exact ⟨0, rfl⟩
    | cons a t => simp at hl
  | succ k ih =>
    intro l hl
    match l with
    | [] => simp at hl
    | [b0] => simp at hl; omega
    | [b0, b1] => simp at hl; omega
    | [b0, b1, b2] => simp at hl; omega
    | b0 :: b1 :: b2 :: b3 :: rest =>
      obtain ⟨s, hs⟩ := ih rest (by simp at hl; omega)
      refine ⟨(b0 + 2 ^ 8 * b1 + 2 ^ 16 * b2 + 2 ^ 24 * b3) + s, ?_⟩
      simp [sumWords, hs]

theorem boot_header_eq (a : Nat) (h : a < 2 ^ 32) :
    boot_header a = some ([0x0A, 0x00, 0x00, 0xEA, 0x65, 0x47, 0x4F, 0x4E,
      0x2E, 0x42, 0x54, 0x30, 0x39, 0x6C, 0x0A, 0x5F] ++ le32 a ++
      ([0x20, 0, 0, 0] ++ List.replicate 8 0)) := by
  have h0 : pack_le32 (0xEA000000 ||| ((CODE_START_OFFSET / 4 - 2) &&& 0x00FFFFFF)) =
      some [0x0A, 0x00, 0x00, 0xEA] := by decide
  have h1 : pack_le32 0x5F0A6C39 = some [0x39, 0x6C, 0x0A, 0x5F] := by decide
  have h2 : pack_le32 HEADER_SIZE = some [0x20, 0, 0, 0] := by decide
  simp [boot_header, h0, h1, h2, pack_le32_eq a h]

theorem boot_header_none (a : Nat) (h : ¬ a < 2 ^ 32) : boot_header a = none := by
  have h0 : pack_le32 (0xEA000000 ||| ((CODE_START_OFFSET / 4 - 2) &&& 0x00FFFFFF)) =
      some [0x0A, 0x00, 0x00, 0xEA] := by decide
  have h1 : pack_le32 0x5F0A6C39 = some [0x39, 0x6C, 0x0A, 0x5F] := by decide
  have hn : pack_le32 a = none := by
    simp only [pack_le32]
    rw [if_neg h]
  simp [boot_header, h0, h1, hn]

theorem assemble_eq (code : List Nat) (h : aligned_size code.length < 2 ^ 32) :
    assemble code = some (IMG code) := by
  simp [assemble, boot_header_eq _ h, IMG, CODE_START_OFFSET, HEADER_SIZE]

theorem assemble_none (code : List Nat) (h : ¬ aligned_size code.length < 2 ^ 32) :
    assemble code = none := by
  simp [assemble, boot_header_none _ h]

theorem IMG_length (code : List Nat) :
    (IMG code).length = aligned_size code.length := by
  have hge := aligned_size_ge code.length
  simp [IMG, le32, CODE_START_OFFSET] at *
  omega

theorem sumWords_IMG (code : List Nat) : sumWords (IMG code) = some (sumVal code) := by
  have hlen : (IMG code).length = 4 * (aligned_size code.length / 4) := by
    rw [IMG_length]
    have := aligned_size_mod code.length
    omega
  obtain ⟨s, hs⟩ := sumWords_total _ _ hlen
  rw [sumVal, hs]
  rfl

theorem assemble_some_bound (code img : List Nat) (h : assemble code = some img) :
    aligned_size code.length < 2 ^ 32 := by
  by_contra hA
  rw [assemble_none code hA] at h
  exact Option.noConfusion h

theorem assemble_some_eq (code img : List Nat) (h : assemble code = some img) :
    img = IMG code := by
  have hA := assemble_some_bound code img h
  rw [assemble_eq code hA] at h
  exact (Option.some.inj h).symm

theorem IMG_take_12 (code : List Nat) :
    (IMG code).take 12 =
      [0x0A, 0x00, 0x00, 0xEA, 0x65, 0x47, 0x4F, 0x4E, 0x2E, 0x42, 0x54, 0x30] := by
  rw [IMG]
  simp only [List.append_assoc]
  rw [List.take_append_of_le_length (by decide)]
  decide

theorem IMG_drop_16 (code : List Nat) :
    (IMG code).drop 16 = le32 (aligned_size code.length) ++
      [0x20, 0, 0, 0] ++ List.replicate 8 0 ++ List.replicate 16 0xFF ++ code ++
      List.replicate (aligned_size code.length - (CODE_START_OFFSET + code.length)) 0 := by
  rw [IMG]
  simp only [List.append_assoc]
  rw [List.drop_append_of_le_length (by decide)]
  have hd : List.drop 16 [0x0A, 0x00, 0x00, 0xEA, 0x65, 0x47, 0x4F, 0x4E, 0x2E,
      0x42, 0x54, 0x30, 0x39, 0x6C, 0x0A, 0x5F] = ([] : List Nat) := by decide
  rw [hd, List.nil_append]

theorem make_boot0_eq (code : List Nat) (h : aligned_size code.length < 2 ^ 32) :
    make_boot0 code = some (OUTimg code) := by
  have hck : pack_le32 (sumVal code &&& 0xFFFFFFFF) =
      some (le32 (sumVal code % 2 ^ 32)) := by
    rw [and_mask32]
    exact pack_le32_eq _ (Nat.mod_lt _ (by norm_num))
  have hshape : (IMG code).take 12 ++ le32 (sumVal code % 2 ^ 32) ++ (IMG code).drop 16 =
      OUTimg code := by
    rw [IMG_take_12, IMG_drop_16, OUTimg]
    simp [List.append_assoc]
  simp only [make_boot0, assemble_eq code h, sumWords_IMG, hck, Option.bind_some,
    bind, Option.bind]
  rw [hshape]
  rfl

theorem make_boot0_none (code : List Nat) (h : ¬ aligned_size code.length < 2 ^ 32) :
    make_boot0 code = none := by
  simp [make_boot0, assemble_none code h]

theorem make_boot0_some_bound (code out : List Nat) (h : make_boot0 code = some out) :
    aligned_size code.length < 2 ^ 32 := by
  by_contra hA
  rw [make_boot0_none code hA] at h
  exact Option.noConfusion h

theorem make_boot0_some_eq (code out : List Nat) (h : make_boot0 code = some out) :
    out = OUTimg code := by
  have hA := make_boot0_some_bound code out h
  rw [make_boot0_eq code hA] at h
  exact (Option.some.inj h).symm

theorem OUTimg_length (code : List Nat) :
    (OUTimg code).length = aligned_size code.length := by
  have hge := aligned_size_ge code.length
  simp [OUTimg, le32, CODE_START_OFFSET] at *
  omega

theorem getD_take_lt (l : List Nat) (n i : Nat) (h : i < n) (d : Nat) :
    (l.take n).getD i d = l.getD i d := by
  simp [List.getD_eq_getElem?_getD, List.getElem?_take, h]

theorem getD_drop (l : List Nat) (n i d : Nat) :
    (l.drop n).getD i d = l.getD (n + i) d := by
  simp [List.getD_eq_getElem?_getD, List.getElem?_drop]

/-! Claim theorems. -/

/-- C1: checksum round-trip. For every produced output image, replacing the
stored checksum field (bytes [12:16]) by the little-endian sentinel
0x5F0A6C39 and summing the whole image as little-endian 32-bit words
modulo 2^32 yields exactly the stored checksum value. -/
theorem checksum_roundtrip (code out : List Nat) (h : make_boot0 code = some out) :
    ∃ stored s,
      unpack_le32 ((out.drop 12).take 4) = some stored ∧
      sumWords (out.take 12 ++ le32 0x5F0A6C39 ++ out.drop 16) = some s ∧
      s % 2 ^ 32 = stored := by
  rw [make_boot0_some_eq code out h]
  refine ⟨sumVal code % 2 ^ 32, sumVal code, ?_, ?_, rfl⟩
  · have h1 : ((OUTimg code).drop 12).take 4 = le32 (sumVal code % 2 ^ 32) := rfl
    rw [h1, unpack_le32_le32]
    exact congrArg some (by omega)
  · have h2 : (OUTimg code).take 12 ++ le32 0x5F0A6C39 ++ (OUTimg code).drop 16 =
        IMG code := rfl
    rw [h2, sumWords_IMG]

set_option maxRecDepth 40000 in
/-- Witness for C1 at the empty input. -/
theorem checksum_roundtrip_witness :
    ∃ stored s,
      unpack_le32 ((((make_boot0 []).getD []).drop 12).take 4) = some stored ∧
      sumWords (((make_boot0 []).getD []).take 12 ++ le32 0x5F0A6C39 ++
        ((make_boot0 []).getD []).drop 16) = some s ∧
      s % 2 ^ 32 = stored :=
  checksum_roundtrip [] ((make_boot0 []).getD []) (by rfl)

/-- C2: for every input of length L, the produced image has length exactly
(0x30 + L + 511) with its low nine bits cleared (the Python expression
(0x30 + L + 511) & ~511), which is a positive multiple of 512. -/
theorem output_length_aligned (code out : List Nat) (h : make_boot0 code = some out) :
    out.length = (0x30 + code.length + 511) - (0x30 + code.length + 511) % 512 ∧
    out.length % 512 = 0 ∧ 0 < out.length := by
  rw [make_boot0_some_eq code out h, OUTimg_length]
  refine ⟨rfl, aligned_size_mod _, ?_⟩
  have := aligned_size_ge code.length
  unfold CODE_START_OFFSET at this
  omega

set_option maxRecDepth 40000 in
/-- Witness for C2 at a one-byte input. -/
theorem output_length_aligned_witness :
    ((make_boot0 [0x11]).getD []).length =
      (0x30 + [(0x11 : Nat)].length + 511) - (0x30 + [(0x11 : Nat)].length + 511) % 512 ∧
    ((make_boot0 [0x11]).getD []).length % 512 = 0 ∧
    0 < ((make_boot0 [0x11]).getD []).length :=
  output_length_aligned [0x11] ((make_boot0 [0x11]).getD []) (by rfl)

/-- C3: the image assembled before the checksum patch is exactly the
32-byte header, then 16 bytes of 0xFF, then the input verbatim at offset
0x30, then zero bytes up to the aligned size; in particular every byte
from offset 0x30 + L to the end is 0x00. -/
theorem assembled_image_layout (code img : List Nat) (h : assemble code = some img) :
    (∃ hdr, boot_header (aligned_size code.length) = some hdr ∧ hdr.length = 32 ∧
      img = hdr ++ List.replicate 16 0xFF ++ code ++
        List.replicate (aligned_size code.length - 0x30 - code.length) 0) ∧
    (∀ i, 0x30 + code.length ≤ i → i < img.length → img.getD i 1 = 0) := by
  have hA := assemble_some_bound code img h
  have himg := assemble_some_eq code img h
  constructor
  · refine ⟨[0x0A, 0x00, 0x00, 0xEA, 0x65, 0x47, 0x4F, 0x4E, 0x2E, 0x42, 0x54, 0x30,
      0x39, 0x6C, 0x0A, 0x5F] ++ le32 (aligned_size code.length) ++
      ([0x20, 0, 0, 0] ++ List.replicate 8 0), boot_header_eq _ hA, by simp [le32], ?_⟩
    rw [himg, IMG]
    simp [List.append_assoc, Nat.sub_sub, CODE_START_OFFSET]
  · intro i h1 h2
    rw [himg] at h2 ⊢
    rw [IMG_length] at h2
    have hge := aligned_size_ge code.length
    have hXlen : ([0x0A, 0x00, 0x00, 0xEA, 0x65, 0x47, 0x4F, 0x4E, 0x2E, 0x42, 0x54,
        0x30, 0x39, 0x6C, 0x0A, 0x5F] ++ le32 (aligned_size code.length) ++
        [0x20, 0, 0, 0] ++ List.replicate 8 0 ++ List.replicate 16 0xFF ++
        code).length = 48 + code.length := by
      simp [le32]
      omega
    have key := List.getD_append_right
      ([0x0A, 0x00, 0x00, 0xEA, 0x65, 0x47, 0x4F, 0x4E, 0x2E, 0x42, 0x54,
        0x30, 0x39, 0x6C, 0x0A, 0x5F] ++ le32 (aligned_size code.length) ++
        [0x20, 0, 0, 0] ++ List.replicate 8 0 ++ List.replicate 16 0xFF ++ code)
      (List.replicate (aligned_size code.length - (CODE_START_OFFSET + code.length)) 0)
      1 i (by rw [hXlen]; omega)
    rw [IMG, key, hXlen]
    rw [List.getD_eq_getElem?_getD, List.getElem?_replicate]
    rw [if_pos (by unfold CODE_START_OFFSET at hge ⊢; omega)]
    rfl

set_option maxRecDepth 40000 in
/-- Witness for C3 at a one-byte input. -/
theorem assembled_image_layout_witness :
    (∃ hdr, boot_header (aligned_size [(0x11 : Nat)].length) = some hdr ∧ hdr.length = 32 ∧
      (assemble [0x11]).getD [] = hdr ++ List.replicate 16 0xFF ++ [0x11] ++
        List.replicate (aligned_size [(0x11 : Nat)].length - 0x30 - [(0x11 : Nat)].length) 0) ∧
    (∀ i, 0x30 + [(0x11 : Nat)].length ≤ i → i < ((assemble [0x11]).getD []).length →
      ((assemble [0x11]).getD []).getD i 1 = 0) :=
  assembled_image_layout [0x11] ((assemble [0x11]).getD []) (by rfl)

/-- C4: the input-independent header fields of the output: bytes [0:4] are
the little-endian word 0xEA000000 bitwise-or ((0x30 / 4 - 2) masked to 24
bits), which equals 0xEA00000A; bytes [4:12] are the ASCII magic
"eGON.BT0"; bytes [20:24] are 32 as a little-endian word; bytes [24:32]
are all zero. -/
theorem header_constant_fields (code out : List Nat) (h : make_boot0 code = some out) :
    out.take 4 = le32 (0xEA000000 ||| ((0x30 / 4 - 2) &&& 0x00FFFFFF)) ∧
    out.take 4 = le32 0xEA00000A ∧
    (out.drop 4).take 8 = [0x65, 0x47, 0x4F, 0x4E, 0x2E, 0x42, 0x54, 0x30] ∧
    (out.drop 20).take 4 = le32 32 ∧
    (out.drop 24).take 8 = List.replicate 8 0 := by
  rw [make_boot0_some_eq code out h]
  exact ⟨rfl, rfl, rfl, rfl, rfl⟩

set_option maxRecDepth 40000 in
/-- Witness for C4 at the empty input. -/
theorem header_constant_fields_witness :
    ((make_boot0 []).getD []).take 4 = le32 (0xEA000000 ||| ((0x30 / 4 - 2) &&& 0x00FFFFFF)) ∧
    ((make_boot0 []).getD []).take 4 = le32 0xEA00000A ∧
    (((make_boot0 []).getD []).drop 4).take 8 = [0x65, 0x47, 0x4F, 0x4E, 0x2E, 0x42, 0x54, 0x30] ∧
    (((make_boot0 []).getD []).drop 20).take 4 = le32 32 ∧
    (((make_boot0 []).getD []).drop 24).take 8 = List.replicate 8 0 :=
  header_constant_fields [] ((make_boot0 []).getD []) (by rfl)

/-- C5: the length field of the header (output bytes [0x10, 0x14), read as
a little-endian 32-bit unsigned integer) equals the true byte length of
the produced output image. -/
theorem header_length_field (code out : List Nat) (h : make_boot0 code = some out) :
    ∃ v, unpack_le32 ((out.drop 16).take 4) = some v ∧ v = out.length := by
  have hA := make_boot0_some_bound code out h
  rw [make_boot0_some_eq code out h]
  refine ⟨aligned_size code.length, ?_, (OUTimg_length code).symm⟩
  have h1 : ((OUTimg code).drop 16).take 4 = le32 (aligned_size code.length) := rfl
  rw [h1, unpack_le32_le32, Nat.mod_eq_of_lt hA]

set_option maxRecDepth 40000 in
/-- Witness for C5 at the empty input. -/
theorem header_length_field_witness :
    ∃ v, unpack_le32 ((((make_boot0 []).getD []).drop 16).take 4) = some v ∧
      v = ((make_boot0 []).getD []).length :=
  header_length_field [] ((make_boot0 []).getD []) (by rfl)

/-- C6: the checksum loop is safe. The assembled image has length divisible
by 4, every 4-byte slice read by the loop lies fully within bounds, and
the word-summing loop never fails to decode a word. -/
theorem checksum_loop_safe (code img : List Nat) (h : assemble code = some img) :
    img.length % 4 = 0 ∧
    (∀ i, i % 4 = 0 → i < img.length → i + 4 ≤ img.length) ∧
    (∃ s, sumWords img = some s) := by
  have himg := assemble_some_eq code img h
  have hlen : img.length = aligned_size code.length := by rw [himg, IMG_length]
  have hm := aligned_size_mod code.length
  refine ⟨by omega, fun i h4 hi => by omega, ?_⟩
  rw [himg]
  exact ⟨sumVal code, sumWords_IMG code⟩

set_option maxRecDepth 40000 in
/-- Witness for C6 at the empty input. -/
theorem checksum_loop_safe_witness :
    ((assemble []).getD []).length % 4 = 0 ∧
    (∀ i, i % 4 = 0 → i < ((assemble []).getD []).length →
      i + 4 ≤ ((assemble []).getD []).length) ∧
    (∃ s, sumWords ((assemble []).getD []) = some s) :=
  checksum_loop_safe [] ((assemble []).getD []) (by rfl)

/-- C7: the checksum write-back is the only mutation. The final output has
the same length as the assembled image and agrees with it at every offset
outside bytes [12:16]. -/
theorem checksum_patch_frame (code img out : List Nat)
    (h1 : assemble code = some img) (h2 : make_boot0 code = some out) :
    out.length = img.length ∧
    (∀ i, i < img.length → i < 12 ∨ 16 ≤ i → out.getD i 0 = img.getD i 0) := by
  have himg := assemble_some_eq code img h1
  have hout := make_boot0_some_eq code out h2
  subst himg hout
  constructor
  · rw [OUTimg_length, IMG_length]
  · intro i hi hcase
    rcases hcase with hlt | hge
    · have ht : (OUTimg code).take 12 = (IMG code).take 12 := rfl
      calc (OUTimg code).getD i 0
          = ((OUTimg code).take 12).getD i 0 := (getD_take_lt _ 12 i hlt 0).symm
        _ = ((IMG code).take 12).getD i 0 := by rw [ht]
        _ = (IMG code).getD i 0 := getD_take_lt _ 12 i hlt 0
    · have hd : (OUTimg code).drop 16 = (IMG code).drop 16 := rfl
      have hi2 : i = 16 + (i - 16) := by omega
      rw [hi2, ← getD_drop, ← getD_drop, hd]

set_option maxRecDepth 40000 in
/-- Witness for C7 at the empty input. -/
theorem checksum_patch_frame_witness :
    ((make_boot0 []).getD []).length = ((assemble []).getD []).length ∧
    (∀ i, i < ((assemble []).getD []).length → i < 12 ∨ 16 ≤ i →
      ((make_boot0 []).getD []).getD i 0 = ((assemble []).getD []).getD i 0) :=
  checksum_patch_frame [] ((assemble []).getD []) ((make_boot0 []).getD [])
    (by rfl) (by rfl)

/-- C8: with an argument count other than exactly two positional arguments
the program prints a usage message to standard output, terminates with a
non-zero exit status, and never invokes the image builder. -/
theorem usage_error_behavior (argv : List String) (h : argv.length ≠ 3) :
    ("Usage: " ++ argv.headD "" ++ " <input.bin> <output.bin>") ∈ (main_py argv).stdout ∧
    (main_py argv).exit_code ≠ 0 ∧
    (main_py argv).invoked = none := by
  simp [main_py, h]

/-- Witness for C8 with no positional arguments. -/
theorem usage_error_behavior_witness :
    ("Usage: " ++ (["mkboot.py"] : List String).headD "" ++ " <input.bin> <output.bin>")
      ∈ (main_py ["mkboot.py"]).stdout ∧
    (main_py ["mkboot.py"]).exit_code ≠ 0 ∧
    (main_py ["mkboot.py"]).invoked = none :=
  usage_error_behavior ["mkboot.py"] (by decide)

/-- C9: the builder is deterministic; its output depends only on the input
bytes, so byte-identical inputs give byte-identical outputs. -/
theorem builder_deterministic (code1 code2 : List Nat) (h : code1 = code2) :
    make_boot0 code1 = make_boot0 code2 := by
  rw [h]

/-- Witness for C9 at a one-byte input. -/
theorem builder_deterministic_witness : make_boot0 [0x11] = make_boot0 [0x11] :=
  builder_deterministic [0x11] [0x11] rfl

/-- C10: on a usage error the exit status is exactly 1. -/
theorem usage_error_exit_one (argv : List String) (h : argv.length ≠ 3) :
    (main_py argv).exit_code = 1 := by
  simp [main_py, h]

/-- Witness for C10 with three positional arguments. -/
theorem usage_error_exit_one_witness :
    (main_py ["mkboot.py", "a.bin", "b.bin", "c.bin"]).exit_code = 1 :=
  usage_error_exit_one ["mkboot.py", "a.bin", "b.bin", "c.bin"] (by decide)
